import Mathlib

/-!
Verification development for the AVRToolsPlus `EventManager` component
(`src/AVRToolsPlus/EventManager.h`).

The repository ships only the declaration header `EventManager.h`; the
companion implementation unit (`EventManager.cpp`, referenced by the header's
file-level documentation) is not part of the sources.  All operational
definitions below are therefore modelled from the specification's description
of the component (listener registration table, two-priority circular event
queues, dispatch/drain algorithm).

Modelling conventions:
* A callback (C `EventListener`, a function pointer) is identified by a
  natural number; a nullable callback argument is `Option Nat`, with `none`
  standing for the null pointer.  Callbacks are inert: instead of executing
  them, dispatch records each invocation as an `Invocation` value, so the
  observable behaviour of a call is its invocation trace plus the new state.
* Event codes and parameters are C `int` values that are only stored and
  compared for equality, never subjected to arithmetic, so they are modelled
  as `Int`.
* The fixed build-time capacities (`EVENTMANAGER_DISPATCH_TABLE_SIZE`,
  `EVENTMANAGER_EVENT_QUEUE_SIZE`, both defaulting to 8) are passed as
  explicit `Nat` parameters `N` (table) and `M` (each queue).
* Each circular FIFO buffer (head/tail indices plus a count) is modelled by
  its abstract content: the list of records from head to tail, whose length
  is the count; push appends at the tail, pop removes the head.
-/

set_option autoImplicit false

namespace EventManager

/-- Default build-time size of the dispatch table
(`EVENTMANAGER_DISPATCH_TABLE_SIZE`). -/
def EVENTMANAGER_DISPATCH_TABLE_SIZE : Nat := 8

/-- Default build-time size of each event queue
(`EVENTMANAGER_EVENT_QUEUE_SIZE`). -/
def EVENTMANAGER_EVENT_QUEUE_SIZE : Nat := 8

/-- Modelled from the spec: the two event priorities (`EventPriority` in the
header): high-priority events are always handled before low-priority ones. -/
inductive EventPriority where
| kHighPriority : EventPriority
| kLowPriority : EventPriority
deriving DecidableEq, Repr

/-- Modelled from the spec: one slot of the dispatch table (`ListenerEntry`):
an event code, a non-null callback reference, and a mutable enabled flag. -/
structure ListenerEntry where
  eventCode : Int
  listener : Nat
  enabled : Bool
deriving DecidableEq, Repr

/-- Modelled from the spec: one pending event (`EventRecord`): the event code
and an integer parameter interpreted only by listeners. -/
structure EventRecord where
  eventCode : Int
  eventParam : Int
deriving DecidableEq, Repr

/-- One observable callback invocation: which callback was called and the
`(eventCode, eventParam)` pair passed to it. -/
structure Invocation where
  listener : Nat
  eventCode : Int
  eventParam : Int
deriving DecidableEq, Repr

/-- Modelled from the spec: the whole state of the event manager: the
dispatch table (in table order), the optional default listener with its own
enabled flag, and the two FIFO event queues (head first). -/
structure EMState where
  table : List ListenerEntry
  defaultListener : Option Nat
  defaultEnabled : Bool
  highQ : List EventRecord
  lowQ : List EventRecord
deriving DecidableEq, Repr

/-- The initial state: empty table, no default listener, empty queues. -/
def initState : EMState :=
  { table := [], defaultListener := none, defaultEnabled := true,
    highQ := [], lowQ := [] }

/-- Whether a table entry is the slot for the `(eventCode, listener)` pair. -/
def entryMatches (code : Int) (f : Nat) (e : ListenerEntry) : Bool :=
  e.eventCode == code && e.listener == f

/-- Modelled from the spec: `addListener(eventCode, listener)`.  Rejects a
null listener, an already-present identical `(eventCode, listener)` pair, and
a full table; otherwise inserts the pair with `enabled = true`. -/
def addListener (N : Nat) (s : EMState) (code : Int) (l : Option Nat) :
    Bool × EMState :=
  match l with
  | none => (false, s)
  | some f =>
    if s.table.any (entryMatches code f) then
      (false, s)
    else if N ≤ s.table.length then
      (false, s)
    else
      (true, { s with table := s.table ++ [⟨code, f, true⟩] })

/-- Remove the first table slot matching the pair, if any. -/
def removeFirstMatch (code : Int) (f : Nat) :
    List ListenerEntry → List ListenerEntry
  | [] => []
  | e :: rest =>
    if entryMatches code f e then rest
    else e :: removeFirstMatch code f rest

/-- Modelled from the spec: `removeListener(eventCode, listener)`.  Removes
the single matching slot if present and reports whether a match was found;
other entries are unaffected. -/
def removeListener (s : EMState) (code : Int) (f : Nat) : Bool × EMState :=
  if s.table.any (entryMatches code f) then
    (true, { s with table := removeFirstMatch code f s.table })
  else
    (false, s)

/-- Modelled from the spec: `removeListener(listener)` (the one-argument
overload).  Removes every slot whose callback equals `listener`, regardless of
event code, and returns the count removed. -/
def removeListenerAll (s : EMState) (f : Nat) : Nat × EMState :=
  ((s.table.filter (fun e => e.listener == f)).length,
   { s with table := s.table.filter (fun e => !(e.listener == f)) })

/-- Set the enabled flag on the first table slot matching the pair. -/
def setEnabledFirst (code : Int) (f : Nat) (en : Bool) :
    List ListenerEntry → List ListenerEntry
  | [] => []
  | e :: rest =>
    if entryMatches code f e then { e with enabled := en } :: rest
    else e :: setEnabledFirst code f en rest

/-- Modelled from the spec: `enableListener(eventCode, listener, enable)`.
Sets the enabled flag on the matching slot; returns false if no match. -/
def enableListener (s : EMState) (code : Int) (f : Nat) (en : Bool) :
    Bool × EMState :=
  if s.table.any (entryMatches code f) then
    (true, { s with table := setEnabledFirst code f en s.table })
  else
    (false, s)

/-- Modelled from the spec: `isListenerEnabled(eventCode, listener)`.  Returns
the current enabled flag of the matching slot, or false if no match. -/
def isListenerEnabled (s : EMState) (code : Int) (f : Nat) : Bool :=
  match s.table.find? (entryMatches code f) with
  | some e => e.enabled
  | none => false

/-- Modelled from the spec: `setDefaultListener(listener)`.  Installs the
fallback callback; rejects null. -/
def setDefaultListener (s : EMState) (l : Option Nat) : Bool × EMState :=
  match l with
  | none => (false, s)
  | some f => (true, { s with defaultListener := some f })

/-- Modelled from the spec: `removeDefaultListener()`.  Clears the fallback;
always succeeds. -/
def removeDefaultListener (s : EMState) : EMState :=
  { s with defaultListener := none }

/-- Modelled from the spec: `enableDefaultListener(enable)`.  Toggles the
fallback's own enabled flag, independent of whether one is installed. -/
def enableDefaultListener (s : EMState) (en : Bool) : EMState :=
  { s with defaultEnabled := en }

/-- Modelled from the spec: `numListeners()`: the number of entries in the
dispatch table. -/
def numListeners (s : EMState) : Nat :=
  s.table.length

/-- Modelled from the spec: `isListenerListEmpty()`. -/
def isListenerListEmpty (s : EMState) : Bool :=
  s.table.isEmpty

/-- Modelled from the spec: `isListenerListFull()` for table capacity `N`. -/
def isListenerListFull (N : Nat) (s : EMState) : Bool :=
  s.table.length == N

/-- The content of the selected priority queue, head first. -/
def getQueue (s : EMState) (pri : EventPriority) : List EventRecord :=
  match pri with
  | EventPriority.kHighPriority => s.highQ
  | EventPriority.kLowPriority => s.lowQ

/-- Replace the content of the selected priority queue. -/
def setQueue (s : EMState) (pri : EventPriority) (q : List EventRecord) :
    EMState :=
  match pri with
  | EventPriority.kHighPriority => { s with highQ := q }
  | EventPriority.kLowPriority => { s with lowQ := q }

/-- Modelled from the spec: `getNumEventsInQueue(pri)`. -/
def getNumEventsInQueue (s : EMState) (pri : EventPriority) : Nat :=
  (getQueue s pri).length

/-- Modelled from the spec: `isEventQueueEmpty(pri)`. -/
def isEventQueueEmpty (s : EMState) (pri : EventPriority) : Bool :=
  (getQueue s pri).isEmpty

/-- Modelled from the spec: `isEventQueueFull(pri)` for queue capacity `M`. -/
def isEventQueueFull (M : Nat) (s : EMState) (pri : EventPriority) : Bool :=
  (getQueue s pri).length == M

/-- Modelled from the spec: `queueEvent(eventCode, eventParam, pri)`.  Appends
to the tail of the selected circular queue; fails without side effects if that
queue is at capacity `M`. -/
def queueEvent (M : Nat) (s : EMState) (code param : Int)
    (pri : EventPriority) : Bool × EMState :=
  if M ≤ (getQueue s pri).length then
    (false, s)
  else
    (true, setQueue s pri (getQueue s pri ++ [⟨code, param⟩]))

/-- Modelled from the spec: the dispatch-table scan of the drain algorithm.
Walks the table in table order and records an invocation (with the event's
`(eventCode, eventParam)`) for every slot whose `eventCode` matches and whose
`enabled` flag is true. -/
def scanTable (code param : Int) : List ListenerEntry → List Invocation
  | [] => []
  | e :: rest =>
    if e.eventCode == code && e.enabled then
      ⟨e.listener, code, param⟩ :: scanTable code param rest
    else
      scanTable code param rest

/-- Modelled from the spec: processing of one popped `EventRecord`: scan the
table; if zero matching enabled listeners were invoked and a default listener
is installed and enabled, invoke it once instead.  The result is the
invocation trace; its length is the handled-event count added to the return
value of `processEvent`. -/
def handleEvent (s : EMState) (r : EventRecord) : List Invocation :=
  let calls := scanTable r.eventCode r.eventParam s.table
  if calls.length == 0 then
    match s.defaultListener with
    | some f => if s.defaultEnabled then [⟨f, r.eventCode, r.eventParam⟩] else []
    | none => []
  else
    calls

/-- Modelled from the spec: `processEvent()`.  Pops one record from the head
of the high-priority queue if non-empty, otherwise from the low-priority queue
if non-empty, otherwise does nothing; the popped record is dispatched through
the table (and possibly the default listener).  Returns the invocation trace
and the new state; the C++ `int` return value is the trace's length. -/
def processEvent (s : EMState) : List Invocation × EMState :=
  match s.highQ with
  | r :: rest => (handleEvent s r, { s with highQ := rest })
  | [] =>
    match s.lowQ with
    | r :: rest => (handleEvent s r, { s with lowQ := rest })
    | [] => ([], s)

/-- The `int` returned by `processEvent()`: the number of handlers called. -/
def processEventCount (s : EMState) : Nat :=
  (processEvent s).1.length

/-- Modelled from the spec: `processAllEvents()`.  Repeatedly performs the
single-event step until both queues report empty, accumulating the invocation
traces; the C++ `int` return value is the accumulated trace's length.  (The
model has no concurrent producers, so the drain terminates.) -/
def processAllEvents (s : EMState) : List Invocation × EMState :=
  if h : s.highQ = [] ∧ s.lowQ = [] then
    ([], s)
  else
    let p := processEvent s
    let q := processAllEvents p.2
    (p.1 ++ q.1, q.2)
termination_by s.highQ.length + s.lowQ.length
decreasing_by
  cases hh : s.highQ with
  | cons r rest => simp [processEvent, hh]
  | nil =>
    cases hl : s.lowQ with
    | cons r rest => simp [processEvent, hh, hl]
    | nil => exact absurd ⟨hh, hl⟩ h

/-- The `int` returned by `processAllEvents()`. -/
def processAllEventsCount (s : EMState) : Nat :=
  (processAllEvents s).1.length

/-- Iterate the single-event step `k` times, concatenating the traces. -/
def processEvents : Nat → EMState → List Invocation × EMState
  | 0, s => ([], s)
  | k + 1, s =>
    let p := processEvent s
    let q := processEvents k p.2
    (p.1 ++ q.1, q.2)

/-- Fold a list of `(eventCode, eventParam)` pairs through `queueEvent` into
the selected queue, reporting how many of the calls succeeded. -/
def enqueueAll (M : Nat) (pri : EventPriority) :
    List (Int × Int) → EMState → Nat × EMState
  | [], s => (0, s)
  | cp :: rest, s =>
    let p := queueEvent M s cp.1 cp.2 pri
    let q := enqueueAll M pri rest p.2
    ((if p.1 then 1 else 0) + q.1, q.2)

/-- One call of the public mutating API, for reachability. -/
inductive EMOp where
| add (code : Int) (l : Option Nat) : EMOp
| removePair (code : Int) (f : Nat) : EMOp
| removeAll (f : Nat) : EMOp
| enable (code : Int) (f : Nat) (en : Bool) : EMOp
| setDefault (l : Option Nat) : EMOp
| removeDefault : EMOp
| enableDefault (en : Bool) : EMOp
| queue (code param : Int) (pri : EventPriority) : EMOp
| process : EMOp
| processAll : EMOp
deriving DecidableEq

/-- Apply one public mutating call to the state (discarding return values);
`N` is the table capacity, `M` the per-queue capacity. -/
def applyOp (N M : Nat) (s : EMState) : EMOp → EMState
  | EMOp.add code l => (addListener N s code l).2
  | EMOp.removePair code f => (removeListener s code f).2
  | EMOp.removeAll f => (removeListenerAll s f).2
  | EMOp.enable code f en => (enableListener s code f en).2
  | EMOp.setDefault l => (setDefaultListener s l).2
  | EMOp.removeDefault => removeDefaultListener s
  | EMOp.enableDefault en => enableDefaultListener s en
  | EMOp.queue code param pri => (queueEvent M s code param pri).2
  | EMOp.process => (processEvent s).2
  | EMOp.processAll => (processAllEvents s).2

/-- Run a sequence of public mutating calls from a starting state. -/
def runOps (N M : Nat) : List EMOp → EMState → EMState
  | [], s => s
  | op :: rest, s => runOps N M rest (applyOp N M s op)

/-- A state is reachable when some sequence of public calls produces it from
the initial (empty) state. -/
def Reachable (N M : Nat) (s : EMState) : Prop :=
  ∃ ops : List EMOp, s = runOps N M ops initState

/-- The structural capacity invariant: table occupancy at most `N`, each
queue's occupancy at most `M`. -/
def Inv (N M : Nat) (s : EMState) : Prop :=
  s.table.length ≤ N ∧ s.highQ.length ≤ M ∧ s.lowQ.length ≤ M

/-- One registration-table call, for the occupancy accounting of the
dispatch table (the two `removeListener` overloads and `addListener`). -/
inductive RegOp where
| add (code : Int) (l : Option Nat) : RegOp
| removePair (code : Int) (f : Nat) : RegOp
| removeAll (f : Nat) : RegOp
deriving DecidableEq

/-- Apply one registration call, also reporting how many entries the call
successfully added and how many it removed. -/
def applyRegOp (N : Nat) (s : EMState) : RegOp → EMState × Nat × Nat
  | RegOp.add code l =>
    ((addListener N s code l).2, (if (addListener N s code l).1 then 1 else 0), 0)
  | RegOp.removePair code f =>
    ((removeListener s code f).2, 0,
      if (removeListener s code f).1 then 1 else 0)
  | RegOp.removeAll f =>
    ((removeListenerAll s f).2, 0, (removeListenerAll s f).1)

/-- Run a sequence of registration calls, accumulating the number of
successful additions and the number of entries removed. -/
def runRegOps (N : Nat) : List RegOp → EMState → EMState × Nat × Nat
  | [], s => (s, 0, 0)
  | op :: rest, s =>
    let p := applyRegOp N s op
    let q := runRegOps N rest p.1
    (q.1, p.2.1 + q.2.1, p.2.2 + q.2.2)

/-- A state whose table holds exactly one registered-but-disabled listener
matching event code 5, with an installed and enabled default listener, and
one pending high-priority event with code 5. -/
def disabledMatchState : EMState :=
  { table := [{ eventCode := 5, listener := 1, enabled := false }],
    defaultListener := some 2, defaultEnabled := true,
    highQ := [{ eventCode := 5, eventParam := 7 }], lowQ := [] }

/-- The eight `(x, x)` pairs of the spec's fill-the-high-queue scenario. -/
def examplePairs : List (Int × Int) :=
  [(0, 0), (1, 1), (2, 2), (3, 3), (4, 4), (5, 5), (6, 6), (7, 7)]

/-- The initial state after filling the high-priority queue with the eight
scenario events — with no listeners registered and no default listener. -/
def exampleFilledNoListeners : EMState :=
  (enqueueAll EVENTMANAGER_EVENT_QUEUE_SIZE EventPriority.kHighPriority
    examplePairs initState).2

/-- The scenario state with an installed (and enabled) default listener and
the high-priority queue filled with the eight scenario events. -/
def exampleFilledDefault : EMState :=
  (enqueueAll EVENTMANAGER_EVENT_QUEUE_SIZE EventPriority.kHighPriority
    examplePairs (setDefaultListener initState (some 1)).2).2

/-- The enabled matching slots of the table for an event code, in table
order (the declarative reading of the dispatch scan). -/
def enabledMatches (s : EMState) (code : Int) : List ListenerEntry :=
  s.table.filter (fun e => e.eventCode == code && e.enabled)

theorem scanTable_eq_map_filter (code param : Int) (t : List ListenerEntry) :
    scanTable code param t =
      (t.filter (fun e => e.eventCode == code && e.enabled)).map
        (fun e => ⟨e.listener, code, param⟩) := by
  induction t with
  | nil => rfl
  | cons e rest ih =>
    by_cases h : (e.eventCode == code && e.enabled) = true
    · simp [scanTable, List.filter_cons, h, ih]
    · simp [scanTable, List.filter_cons, h, ih]

theorem mem_scanTable_fields {code param : Int} {t : List ListenerEntry}
    {inv : Invocation} (h : inv ∈ scanTable code param t) :
    inv.eventCode = code ∧ inv.eventParam = param := by
  rw [scanTable_eq_map_filter] at h
  obtain ⟨e, -, rfl⟩ := List.mem_map.mp h
  exact ⟨rfl, rfl⟩

theorem mem_handleEvent_fields {s : EMState} {r : EventRecord}
    {inv : Invocation} (h : inv ∈ handleEvent s r) :
    inv.eventCode = r.eventCode ∧ inv.eventParam = r.eventParam := by
  simp only [handleEvent] at h
  by_cases hl : ((scanTable r.eventCode r.eventParam s.table).length == 0) = true
  · rw [if_pos hl] at h
    cases hd : s.defaultListener with
    | none => rw [hd] at h; simp at h
    | some f =>
      rw [hd] at h
      by_cases he : s.defaultEnabled = true
      · simp only [he, if_true] at h
        simp at h
        subst h
        exact ⟨rfl, rfl⟩
      · simp [he] at h
  · rw [if_neg hl] at h
    exact mem_scanTable_fields h

theorem table_setQueue (s : EMState) (pri : EventPriority)
    (q : List EventRecord) : (setQueue s pri q).table = s.table := by
  cases pri <;> rfl

theorem defaultListener_setQueue (s : EMState) (pri : EventPriority)
    (q : List EventRecord) :
    (setQueue s pri q).defaultListener = s.defaultListener := by
  cases pri <;> rfl

theorem defaultEnabled_setQueue (s : EMState) (pri : EventPriority)
    (q : List EventRecord) :
    (setQueue s pri q).defaultEnabled = s.defaultEnabled := by
  cases pri <;> rfl

theorem getQueue_setQueue_same (s : EMState) (pri : EventPriority)
    (q : List EventRecord) : getQueue (setQueue s pri q) pri = q := by
  cases pri <;> rfl

theorem handleEvent_congr {s' s : EMState} (ht : s'.table = s.table)
    (hd : s'.defaultListener = s.defaultListener)
    (he : s'.defaultEnabled = s.defaultEnabled) :
    handleEvent s' = handleEvent s := by
  funext r
  unfold handleEvent
  rw [ht, hd, he]

theorem handleEvent_setQueue (s : EMState) (pri : EventPriority)
    (q : List EventRecord) : handleEvent (setQueue s pri q) = handleEvent s :=
  handleEvent_congr (table_setQueue s pri q) (defaultListener_setQueue s pri q)
    (defaultEnabled_setQueue s pri q)

theorem processEvents_drain_high (q : List EventRecord) :
    ∀ s : EMState, s.highQ = q →
      processEvents q.length s =
        ((q.map (handleEvent s)).flatten, { s with highQ := [] }) := by
  induction q with
  | nil =>
    intro s h
    cases s with
    | mk tb dl de hq lq =>
      simp only at h
      subst h
      rfl
  | cons r rest ih =>
    intro s h
    have hstep : processEvent s = (handleEvent s r, { s with highQ := rest }) := by
      simp [processEvent, h]
    have hcongr : handleEvent { s with highQ := rest } = handleEvent s :=
      handleEvent_congr rfl rfl rfl
    have ih' := ih { s with highQ := rest } rfl
    simp only [List.length_cons, processEvents, hstep, ih', hcongr, List.map_cons,
      List.flatten_cons]

theorem processEvents_drain_low (q : List EventRecord) :
    ∀ s : EMState, s.highQ = [] → s.lowQ = q →
      processEvents q.length s =
        ((q.map (handleEvent s)).flatten, { s with lowQ := [] }) := by
  induction q with
  | nil =>
    intro s hh hl
    cases s with
    | mk tb dl de hq lq =>
      simp only at hh hl
      subst hh; subst hl
      rfl
  | cons r rest ih =>
    intro s hh hl
    have hstep : processEvent s = (handleEvent s r, { s with lowQ := rest }) := by
      simp [processEvent, hh, hl]
    have hcongr : handleEvent { s with lowQ := rest } = handleEvent s :=
      handleEvent_congr rfl rfl rfl
    have ih' := ih { s with lowQ := rest } hh rfl
    simp only [List.length_cons, processEvents, hstep, ih', hcongr, List.map_cons,
      List.flatten_cons]

theorem processAllEvents_emptyLow (q : List EventRecord) :
    ∀ s : EMState, s.highQ = [] → s.lowQ = q →
      processAllEvents s =
        ((q.map (handleEvent s)).flatten, { s with lowQ := [] }) := by
  induction q with
  | nil =>
    intro s hh hl
    rw [processAllEvents]
    cases s with
    | mk tb dl de hq lq =>
      simp only at hh hl
      subst hh; subst hl
      rfl
  | cons r rest ih =>
    intro s hh hl
    rw [processAllEvents]
    rw [dif_neg (by simp [hl])]
    have hstep : processEvent s = (handleEvent s r, { s with lowQ := rest }) := by
      simp [processEvent, hh, hl]
    have hcongr : handleEvent { s with lowQ := rest } = handleEvent s :=
      handleEvent_congr rfl rfl rfl
    have ih' := ih { s with lowQ := rest } hh rfl
    simp only [hstep, ih', hcongr, List.map_cons, List.flatten_cons]

theorem processAllEvents_char (q : List EventRecord) :
    ∀ s : EMState, s.highQ = q →
      processAllEvents s =
        ((q.map (handleEvent s)).flatten ++ (s.lowQ.map (handleEvent s)).flatten,
          { s with highQ := [], lowQ := [] }) := by
  induction q with
  | nil =>
    intro s hh
    have := processAllEvents_emptyLow s.lowQ s hh rfl
    rw [this]
    cases s with
    | mk tb dl de hq lq =>
      simp only at hh
      subst hh
      rfl
  | cons r rest ih =>
    intro s hh
    rw [processAllEvents]
    rw [dif_neg (by simp [hh])]
    have hstep : processEvent s = (handleEvent s r, { s with highQ := rest }) := by
      simp [processEvent, hh]
    have hcongr : handleEvent { s with highQ := rest } = handleEvent s :=
      handleEvent_congr rfl rfl rfl
    have ih' := ih { s with highQ := rest } rfl
    simp only [hstep, ih', hcongr, List.map_cons, List.flatten_cons]
    simp

theorem setQueue_setQueue (s : EMState) (pri : EventPriority)
    (q1 q2 : List EventRecord) :
    setQueue (setQueue s pri q1) pri q2 = setQueue s pri q2 := by
  cases pri <;> rfl

theorem addListener_none (N : Nat) (s : EMState) (code : Int) :
    addListener N s code none = (false, s) := rfl

theorem addListener_dup (N : Nat) (s : EMState) (code : Int) (f : Nat)
    (hd : s.table.any (entryMatches code f) = true) :
    addListener N s code (some f) = (false, s) := by
  simp only [addListener]
  rw [if_pos hd]

theorem addListener_full (N : Nat) (s : EMState) (code : Int) (f : Nat)
    (hd : ¬s.table.any (entryMatches code f) = true)
    (hn : N ≤ s.table.length) :
    addListener N s code (some f) = (false, s) := by
  simp only [addListener]
  rw [if_neg hd, if_pos hn]

theorem addListener_ok (N : Nat) (s : EMState) (code : Int) (f : Nat)
    (hd : ¬s.table.any (entryMatches code f) = true)
    (hn : ¬N ≤ s.table.length) :
    addListener N s code (some f) =
      (true, { s with table := s.table ++ [⟨code, f, true⟩] }) := by
  simp only [addListener]
  rw [if_neg hd, if_neg hn]

theorem removeListener_found (s : EMState) (code : Int) (f : Nat)
    (hd : s.table.any (entryMatches code f) = true) :
    removeListener s code f =
      (true, { s with table := removeFirstMatch code f s.table }) := by
  unfold removeListener
  rw [if_pos hd]

theorem removeListener_notFound (s : EMState) (code : Int) (f : Nat)
    (hd : ¬s.table.any (entryMatches code f) = true) :
    removeListener s code f = (false, s) := by
  unfold removeListener
  rw [if_neg hd]

theorem enableListener_found (s : EMState) (code : Int) (f : Nat) (en : Bool)
    (hd : s.table.any (entryMatches code f) = true) :
    enableListener s code f en =
      (true, { s with table := setEnabledFirst code f en s.table }) := by
  unfold enableListener
  rw [if_pos hd]

theorem enableListener_notFound (s : EMState) (code : Int) (f : Nat) (en : Bool)
    (hd : ¬s.table.any (entryMatches code f) = true) :
    enableListener s code f en = (false, s) := by
  unfold enableListener
  rw [if_neg hd]

theorem queueEvent_full (M : Nat) (s : EMState) (code param : Int)
    (pri : EventPriority) (h : M ≤ (getQueue s pri).length) :
    queueEvent M s code param pri = (false, s) := by
  unfold queueEvent
  rw [if_pos h]

theorem queueEvent_ok (M : Nat) (s : EMState) (code param : Int)
    (pri : EventPriority) (h : ¬M ≤ (getQueue s pri).length) :
    queueEvent M s code param pri =
      (true, setQueue s pri (getQueue s pri ++ [⟨code, param⟩])) := by
  unfold queueEvent
  rw [if_neg h]

theorem enqueueAll_success (M : Nat) (pri : EventPriority) :
    ∀ (ps : List (Int × Int)) (s : EMState),
      (getQueue s pri).length + ps.length ≤ M →
      enqueueAll M pri ps s =
        (ps.length,
          setQueue s pri
            (getQueue s pri ++ ps.map (fun cp => ⟨cp.1, cp.2⟩))) := by
  intro ps
  induction ps with
  | nil =>
    intro s h
    simp only [enqueueAll, List.map_nil, List.append_nil]
    cases pri <;> simp [setQueue, getQueue]
  | cons cp rest ih =>
    intro s h
    have hlen : (getQueue s pri).length < M := by
      simp only [List.length_cons] at h
      omega
    have hq : queueEvent M s cp.1 cp.2 pri =
        (true, setQueue s pri (getQueue s pri ++ [⟨cp.1, cp.2⟩])) :=
      queueEvent_ok M s cp.1 cp.2 pri (by omega)
    have hbound :
        (getQueue (setQueue s pri (getQueue s pri ++ [⟨cp.1, cp.2⟩])) pri).length
          + rest.length ≤ M := by
      rw [getQueue_setQueue_same]
      simp only [List.length_append, List.length_cons, List.length_nil] at h ⊢
      omega
    have ih' := ih (setQueue s pri (getQueue s pri ++ [⟨cp.1, cp.2⟩])) hbound
    simp only [enqueueAll, hq, ih', getQueue_setQueue_same, setQueue_setQueue,
      List.length_cons, List.map_cons, List.append_assoc, List.singleton_append]
    simp [Nat.add_comm]

theorem length_filter_not_add {α : Type} (p : α → Bool) (l : List α) :
    (l.filter (fun a => !(p a))).length + (l.filter p).length = l.length := by
  induction l with
  | nil => rfl
  | cons a t ih => by_cases h : p a = true <;> simp [List.filter_cons, h] <;> omega

theorem length_removeFirstMatch (code : Int) (f : Nat) :
    ∀ l : List ListenerEntry, l.any (entryMatches code f) = true →
      (removeFirstMatch code f l).length + 1 = l.length := by
  intro l
  induction l with
  | nil => intro h; simp at h
  | cons e t ih =>
    intro h
    by_cases he : entryMatches code f e = true
    · simp [removeFirstMatch, he]
    · have ht : t.any (entryMatches code f) = true := by
        simp only [List.any_cons, he, Bool.false_or] at h
        exact h
      simp only [removeFirstMatch, if_neg he, List.length_cons]
      rw [← ih ht]

theorem length_setEnabledFirst (code : Int) (f : Nat) (en : Bool) :
    ∀ l : List ListenerEntry,
      (setEnabledFirst code f en l).length = l.length := by
  intro l
  induction l with
  | nil => rfl
  | cons e t ih =>
    by_cases he : entryMatches code f e = true
    · simp [setEnabledFirst, he]
    · simp only [setEnabledFirst, if_neg he, List.length_cons, ih]


theorem applyOp_inv (N M : Nat) (s : EMState) (op : EMOp) (h : Inv N M s) :
    Inv N M (applyOp N M s op) := by
  obtain ⟨h1, h2, h3⟩ := h
  cases op with
  | add code l =>
    cases l with
    | none => exact ⟨h1, h2, h3⟩
    | some f =>
      simp only [applyOp]
      by_cases hd : s.table.any (entryMatches code f) = true
      · rw [addListener_dup N s code f hd]
        exact ⟨h1, h2, h3⟩
      · by_cases hn : N ≤ s.table.length
        · rw [addListener_full N s code f hd hn]
          exact ⟨h1, h2, h3⟩
        · rw [addListener_ok N s code f hd hn]
          refine ⟨?_, h2, h3⟩
          show (s.table ++ [({ eventCode := code, listener := f, enabled := true } : ListenerEntry)]).length ≤ N
          simp only [List.length_append, List.length_cons, List.length_nil]
          omega
  | removePair code f =>
    simp only [applyOp]
    by_cases hd : s.table.any (entryMatches code f) = true
    · rw [removeListener_found s code f hd]
      refine ⟨?_, h2, h3⟩
      show (removeFirstMatch code f s.table).length ≤ N
      have := length_removeFirstMatch code f s.table hd
      omega
    · rw [removeListener_notFound s code f hd]
      exact ⟨h1, h2, h3⟩
  | removeAll f =>
    exact ⟨le_trans (List.length_filter_le _ _) h1, h2, h3⟩
  | enable code f en =>
    simp only [applyOp]
    by_cases hd : s.table.any (entryMatches code f) = true
    · rw [enableListener_found s code f en hd]
      refine ⟨?_, h2, h3⟩
      show (setEnabledFirst code f en s.table).length ≤ N
      rw [length_setEnabledFirst]
      exact h1
    · rw [enableListener_notFound s code f en hd]
      exact ⟨h1, h2, h3⟩
  | setDefault l =>
    cases l with
    | none => exact ⟨h1, h2, h3⟩
    | some f => exact ⟨h1, h2, h3⟩
  | removeDefault => exact ⟨h1, h2, h3⟩
  | enableDefault en => exact ⟨h1, h2, h3⟩
  | queue code param pri =>
    simp only [applyOp]
    by_cases hf : M ≤ (getQueue s pri).length
    · rw [queueEvent_full M s code param pri hf]
      exact ⟨h1, h2, h3⟩
    · rw [queueEvent_ok M s code param pri hf]
      cases pri with
      | kHighPriority =>
        refine ⟨h1, ?_, h3⟩
        show (s.highQ ++ [({ eventCode := code, eventParam := param } : EventRecord)]).length ≤ M
        simp only [getQueue] at hf
        simp only [List.length_append, List.length_cons, List.length_nil]
        omega
      | kLowPriority =>
        refine ⟨h1, h2, ?_⟩
        show (s.lowQ ++ [({ eventCode := code, eventParam := param } : EventRecord)]).length ≤ M
        simp only [getQueue] at hf
        simp only [List.length_append, List.length_cons, List.length_nil]
        omega
  | process =>
    simp only [applyOp]
    cases hh : s.highQ with
    | cons r t =>
      simp only [processEvent, hh]
      refine ⟨h1, ?_, h3⟩
      rw [hh] at h2
      simp only [List.length_cons] at h2
      show t.length ≤ M
      omega
    | nil =>
      cases hl : s.lowQ with
      | cons r t =>
        simp only [processEvent, hh, hl]
        refine ⟨h1, Nat.zero_le M, ?_⟩
        rw [hl] at h3
        simp only [List.length_cons] at h3
        show t.length ≤ M
        omega
      | nil =>
        simp only [processEvent, hh, hl]
        exact ⟨h1, h2, h3⟩
  | processAll =>
    simp only [applyOp]
    rw [processAllEvents_char s.highQ s rfl]
    exact ⟨h1, by simp, by simp⟩

theorem runOps_inv (N M : Nat) :
    ∀ (ops : List EMOp) (s : EMState), Inv N M s → Inv N M (runOps N M ops s) := by
  intro ops
  induction ops with
  | nil => intro s h; exact h
  | cons op rest ih =>
    intro s h
    exact ih (applyOp N M s op) (applyOp_inv N M s op h)

theorem reachable_inv (N M : Nat) (s : EMState) (h : Reachable N M s) :
    Inv N M s := by
  obtain ⟨ops, rfl⟩ := h
  exact runOps_inv N M ops initState
    ⟨Nat.zero_le N, Nat.zero_le M, Nat.zero_le M⟩




theorem applyRegOp_counts (N : Nat) (s : EMState) (op : RegOp) :
    ((applyRegOp N s op).1.table.length : Int)
        = (s.table.length : Int) + (applyRegOp N s op).2.1
            - (applyRegOp N s op).2.2 ∧
      (s.table.length ≤ N → (applyRegOp N s op).1.table.length ≤ N) := by
  cases op with
  | add code l =>
    cases l with
    | none =>
      refine ⟨?_, fun h => h⟩
      show ((s.table.length : Int)) = (s.table.length : Int) + ((if false then 1 else 0 : Nat) : Int) - ((0 : Nat) : Int)
      simp
    | some f =>
      simp only [applyRegOp]
      by_cases hd : s.table.any (entryMatches code f) = true
      · rw [addListener_dup N s code f hd]
        refine ⟨?_, fun h => h⟩
        show ((s.table.length : Int)) = (s.table.length : Int) + ((if false then 1 else 0 : Nat) : Int) - ((0 : Nat) : Int)
        simp
      · by_cases hn : N ≤ s.table.length
        · rw [addListener_full N s code f hd hn]
          refine ⟨?_, fun h => h⟩
          show ((s.table.length : Int)) = (s.table.length : Int) + ((if false then 1 else 0 : Nat) : Int) - ((0 : Nat) : Int)
          simp
        · rw [addListener_ok N s code f hd hn]
          constructor
          · show (((s.table ++ [({ eventCode := code, listener := f, enabled := true } : ListenerEntry)]).length : Nat) : Int) = (s.table.length : Int) + ((if true then 1 else 0 : Nat) : Int) - ((0 : Nat) : Int)
            simp only [List.length_append, List.length_cons, List.length_nil, if_true]
            omega
          · intro h
            show (s.table ++ [({ eventCode := code, listener := f, enabled := true } : ListenerEntry)]).length ≤ N
            simp only [List.length_append, List.length_cons, List.length_nil]
            omega
  | removePair code f =>
    simp only [applyRegOp]
    by_cases hd : s.table.any (entryMatches code f) = true
    · rw [removeListener_found s code f hd]
      have := length_removeFirstMatch code f s.table hd
      constructor
      · show (((removeFirstMatch code f s.table).length : Nat) : Int) = (s.table.length : Int) + ((0 : Nat) : Int) - ((if true then 1 else 0 : Nat) : Int)
        simp only [if_true]
        omega
      · intro h
        show (removeFirstMatch code f s.table).length ≤ N
        omega
    · rw [removeListener_notFound s code f hd]
      refine ⟨?_, fun h => h⟩
      show ((s.table.length : Int)) = (s.table.length : Int) + ((0 : Nat) : Int) - ((if false then 1 else 0 : Nat) : Int)
      simp
  | removeAll f =>
    have := length_filter_not_add (fun e : ListenerEntry => e.listener == f) s.table
    constructor
    · show (((s.table.filter (fun e => !(e.listener == f))).length : Nat) : Int) = (s.table.length : Int) + ((0 : Nat) : Int) - (((s.table.filter (fun e => e.listener == f)).length : Nat) : Int)
      omega
    · intro h
      show (s.table.filter (fun e => !(e.listener == f))).length ≤ N
      omega

theorem runRegOps_counts (N : Nat) :
    ∀ (ops : List RegOp) (s : EMState),
      ((runRegOps N ops s).1.table.length : Int)
          = (s.table.length : Int) + (runRegOps N ops s).2.1
              - (runRegOps N ops s).2.2 ∧
        (s.table.length ≤ N → (runRegOps N ops s).1.table.length ≤ N) := by
  intro ops
  induction ops with
  | nil => intro s; simp [runRegOps]
  | cons op rest ih =>
    intro s
    obtain ⟨ha, hb⟩ := applyRegOp_counts N s op
    obtain ⟨hc, hd⟩ := ih (applyRegOp N s op).1
    simp only [runRegOps]
    constructor
    · omega
    · intro h
      exact hd (hb h)

/-- C1: `processEvent` pops exactly one record from the head of the
high-priority queue when that queue is non-empty (so whenever both queues are
non-empty the popped record comes from the high-priority queue), otherwise
from the head of the low-priority queue, otherwise it performs no work and
returns 0.  The popped record is removed unconditionally.  For the popped
record the scan invokes, in table order, the callback of every slot whose
`eventCode` matches and whose `enabled` flag is true, passing
`(eventCode, eventParam)` — exactly those invocations whenever at least one
such slot exists — and the returned count is the number of invocations
performed. -/
theorem processEvent_pop_dispatch_spec (s : EMState) :
    (s.highQ = [] → s.lowQ = [] → processEvent s = ([], s)) ∧
    (∀ r t, s.highQ = r :: t →
      processEvent s = (handleEvent s r, { s with highQ := t })) ∧
    (∀ r t, s.highQ = [] → s.lowQ = r :: t →
      processEvent s = (handleEvent s r, { s with lowQ := t })) ∧
    (∀ r : EventRecord,
      scanTable r.eventCode r.eventParam s.table =
        (enabledMatches s r.eventCode).map
          (fun e => ⟨e.listener, r.eventCode, r.eventParam⟩)) ∧
    (∀ r : EventRecord, scanTable r.eventCode r.eventParam s.table ≠ [] →
      handleEvent s r = scanTable r.eventCode r.eventParam s.table) ∧
    processEventCount s = (processEvent s).1.length := by
  refine ⟨?_, ?_, ?_, ?_, ?_, rfl⟩
  · intro h1 h2
    simp [processEvent, h1, h2]
  · intro r t h
    simp [processEvent, h]
  · intro r t h1 h2
    simp [processEvent, h1, h2]
  · intro r
    exact scanTable_eq_map_filter r.eventCode r.eventParam s.table
  · intro r h
    have hne : ¬(((scanTable r.eventCode r.eventParam s.table).length == 0) = true) := by
      simp only [beq_iff_eq, List.length_eq_zero]
      exact h
    simp only [handleEvent, if_neg hne]

/-- Witness for C1 at a concrete state with both queues non-empty: the
record popped is the head of the high-priority queue. -/
theorem processEvent_pop_dispatch_spec_witness :
    processEvent ⟨[], none, true, [⟨1, 2⟩], [⟨3, 4⟩]⟩ =
      (handleEvent ⟨[], none, true, [⟨1, 2⟩], [⟨3, 4⟩]⟩ ⟨1, 2⟩,
        ⟨[], none, true, [], [⟨3, 4⟩]⟩) :=
  (processEvent_pop_dispatch_spec ⟨[], none, true, [⟨1, 2⟩], [⟨3, 4⟩]⟩).2.1 ⟨1, 2⟩ [] rfl

/-- C4: `addListener` returns false exactly when the listener is null, an
identical `(eventCode, listener)` pair is already present, or the table has
no free slot; otherwise it appends the pair with `enabled = true` and
returns true.  A duplicate call returns false and leaves `numListeners()`
unchanged. -/
theorem addListener_contract (N : Nat) (s : EMState) (code : Int)
    (l : Option Nat) :
    ((addListener N s code l).1 = false ↔
      (l = none ∨
        (∃ f, l = some f ∧ s.table.any (entryMatches code f) = true) ∨
        N ≤ s.table.length)) ∧
    (∀ f, l = some f → ¬s.table.any (entryMatches code f) = true →
      ¬N ≤ s.table.length →
      addListener N s code l =
        (true, { s with table := s.table ++ [⟨code, f, true⟩] })) ∧
    (∀ f, l = some f → s.table.any (entryMatches code f) = true →
      (addListener N s code l).1 = false ∧
      numListeners (addListener N s code l).2 = numListeners s) := by
  refine ⟨?_, ?_, ?_⟩
  · cases l with
    | none => simp [addListener_none]
    | some f =>
      by_cases hd : s.table.any (entryMatches code f) = true
      · rw [addListener_dup N s code f hd]
        simp only [true_iff]
        exact Or.inr (Or.inl ⟨f, rfl, hd⟩)
      · by_cases hn : N ≤ s.table.length
        · rw [addListener_full N s code f hd hn]
          simp only [true_iff]
          exact Or.inr (Or.inr hn)
        · rw [addListener_ok N s code f hd hn]
          constructor
          · intro h
            simp at h
          · intro h
            rcases h with h | ⟨g, hg, hany⟩ | h
            · simp at h
            · injection hg with hg2
              subst hg2
              exact absurd hany hd
            · exact absurd h hn
  · rintro f rfl hd hn
    exact addListener_ok N s code f hd hn
  · rintro f rfl hd
    rw [addListener_dup N s code f hd]
    exact ⟨rfl, rfl⟩

/-- Witness for C4: a fresh insertion succeeds, and the duplicate second
call fails without changing the listener count. -/
theorem addListener_contract_witness :
    addListener 8 initState 7 (some 1) =
      (true, { initState with table := [⟨7, 1, true⟩] }) ∧
    (addListener 8 { initState with table := [⟨7, 1, true⟩] } 7 (some 1)).1
        = false ∧
    numListeners
        (addListener 8 { initState with table := [⟨7, 1, true⟩] } 7 (some 1)).2
      = numListeners { initState with table := [⟨7, 1, true⟩] } := by
  refine ⟨?_, ?_⟩
  · exact (addListener_contract 8 initState 7 (some 1)).2.1 1 rfl
      (by decide) (by decide)
  · exact (addListener_contract 8 { initState with table := [⟨7, 1, true⟩] }
      7 (some 1)).2.2 1 rfl (by decide)

/-- C5: every fallible operation signals failure only through its boolean or
count return value, and a failed operation leaves the entire observable state
unchanged.  In particular `queueEvent` on a queue holding `M` entries returns
false and leaves that queue's occupancy (and everything else) unchanged, and
an enqueue succeeds exactly when the selected queue is below capacity, so the
next enqueue into a full queue can succeed only after a pop. -/
theorem failure_atomicity (N M : Nat) (s : EMState) (code param : Int)
    (f : Nat) (l : Option Nat) (en : Bool) (pri : EventPriority) :
    ((addListener N s code l).1 = false → (addListener N s code l).2 = s) ∧
    ((removeListener s code f).1 = false → (removeListener s code f).2 = s) ∧
    ((removeListenerAll s f).1 = 0 → (removeListenerAll s f).2 = s) ∧
    ((enableListener s code f en).1 = false →
      (enableListener s code f en).2 = s) ∧
    ((setDefaultListener s l).1 = false → (setDefaultListener s l).2 = s) ∧
    ((queueEvent M s code param pri).1 = false →
      (queueEvent M s code param pri).2 = s) ∧
    (getNumEventsInQueue s pri = M →
      (queueEvent M s code param pri).1 = false ∧
      getNumEventsInQueue (queueEvent M s code param pri).2 pri = M) ∧
    ((queueEvent M s code param pri).1 = true ↔
      getNumEventsInQueue s pri < M) := by
  have hq : getNumEventsInQueue s pri = (getQueue s pri).length := rfl
  refine ⟨?_, ?_, ?_, ?_, ?_, ?_, ?_, ?_⟩
  · cases l with
    | none => intro _; rfl
    | some g =>
      by_cases hd : s.table.any (entryMatches code g) = true
      · rw [addListener_dup N s code g hd]
        intro _; rfl
      · by_cases hn : N ≤ s.table.length
        · rw [addListener_full N s code g hd hn]
          intro _; rfl
        · rw [addListener_ok N s code g hd hn]
          intro h; simp at h
  · by_cases hd : s.table.any (entryMatches code f) = true
    · rw [removeListener_found s code f hd]
      intro h; simp at h
    · rw [removeListener_notFound s code f hd]
      intro _; rfl
  · intro h
    have hf : s.table.filter (fun e => e.listener == f) = [] :=
      List.length_eq_zero.mp h
    have hall : ∀ e ∈ s.table, ¬(e.listener == f) = true :=
      fun e he => by simpa using (List.filter_eq_nil_iff.mp hf) e he
    show { s with table := s.table.filter (fun e => !(e.listener == f)) } = s
    rw [List.filter_eq_self.mpr (fun e he => by simp [hall e he])]
  · by_cases hd : s.table.any (entryMatches code f) = true
    · rw [enableListener_found s code f en hd]
      intro h; simp at h
    · rw [enableListener_notFound s code f en hd]
      intro _; rfl
  · cases l with
    | none => intro _; rfl
    | some g => intro h; simp [setDefaultListener] at h
  · by_cases hfull : M ≤ (getQueue s pri).length
    · rw [queueEvent_full M s code param pri hfull]
      intro _; rfl
    · rw [queueEvent_ok M s code param pri hfull]
      intro h; simp at h
  · intro h
    have hfull : M ≤ (getQueue s pri).length := by rw [hq] at h; omega
    rw [queueEvent_full M s code param pri hfull]
    exact ⟨rfl, h⟩
  · constructor
    · intro h
      by_cases hfull : M ≤ (getQueue s pri).length
      · rw [queueEvent_full M s code param pri hfull] at h
        simp at h
      · rw [hq]; omega
    · intro h
      have hfull : ¬M ≤ (getQueue s pri).length := by rw [hq] at h; omega
      rw [queueEvent_ok M s code param pri hfull]

/-- Witness for C5: with the low-priority queue already holding `M = 1`
entries, an enqueue fails, the state is unchanged, and the occupancy query
still reports 1. -/
theorem failure_atomicity_witness :
    (queueEvent 1 ⟨[], none, true, [], [⟨0, 0⟩]⟩ 9 9
        EventPriority.kLowPriority).1 = false ∧
    getNumEventsInQueue
        (queueEvent 1 ⟨[], none, true, [], [⟨0, 0⟩]⟩ 9 9
          EventPriority.kLowPriority).2 EventPriority.kLowPriority = 1 :=
  (failure_atomicity 8 1 ⟨[], none, true, [], [⟨0, 0⟩]⟩ 9 9 0 none true
    EventPriority.kLowPriority).2.2.2.2.2.2.1 (by decide)

/-- C8: `isListenerEnabled` returns the enabled flag of the matching
`(eventCode, listener)` slot, and false when no such pair exists; an
observer of this query cannot distinguish an absent pair from a
registered-but-disabled pair. -/
theorem isListenerEnabled_contract (s : EMState) (code : Int) (f : Nat) :
    (∀ e, s.table.find? (entryMatches code f) = some e →
      isListenerEnabled s code f = e.enabled) ∧
    (s.table.find? (entryMatches code f) = none →
      isListenerEnabled s code f = false) ∧
    (∀ s' : EMState, s.table.find? (entryMatches code f) = none →
      (∀ e, s'.table.find? (entryMatches code f) = some e →
        e.enabled = false) →
      isListenerEnabled s code f = isListenerEnabled s' code f) := by
  refine ⟨?_, ?_, ?_⟩
  · intro e he
    unfold isListenerEnabled
    rw [he]
  · intro he
    unfold isListenerEnabled
    rw [he]
  · intro s' hnone hdis
    unfold isListenerEnabled
    rw [hnone]
    cases he : s'.table.find? (entryMatches code f) with
    | none => rfl
    | some e => exact (hdis e he).symm

/-- Witness for C8: the empty table and a table holding the pair disabled
answer the query identically. -/
theorem isListenerEnabled_contract_witness :
    isListenerEnabled initState 5 1 =
      isListenerEnabled ⟨[⟨5, 1, false⟩], none, true, [], []⟩ 5 1 :=
  (isListenerEnabled_contract initState 5 1).2.2
    ⟨[⟨5, 1, false⟩], none, true, [], []⟩ (by decide)
    (by
      intro e he
      have he2 : some (⟨5, 1, false⟩ : ListenerEntry) = some e := he
      injection he2 with he3
      exact (congrArg ListenerEntry.enabled he3).symm)

/-- C9: `processEvent` and `processAllEvents` modify only the two event
queues: the dispatch table, the default-listener registration and its
enabled flag are unchanged (the model's callbacks are inert, so they make
no registry-mutating calls). -/
theorem dispatch_frame (s : EMState) :
    (processEvent s).2.table = s.table ∧
    (processEvent s).2.defaultListener = s.defaultListener ∧
    (processEvent s).2.defaultEnabled = s.defaultEnabled ∧
    (processAllEvents s).2.table = s.table ∧
    (processAllEvents s).2.defaultListener = s.defaultListener ∧
    (processAllEvents s).2.defaultEnabled = s.defaultEnabled := by
  have hpe : (processEvent s).2.table = s.table ∧
      (processEvent s).2.defaultListener = s.defaultListener ∧
      (processEvent s).2.defaultEnabled = s.defaultEnabled := by
    cases hh : s.highQ with
    | cons r t => simp [processEvent, hh]
    | nil =>
      cases hl : s.lowQ with
      | cons r t => simp [processEvent, hh, hl]
      | nil => simp [processEvent, hh, hl]
  have hpa := processAllEvents_char s.highQ s rfl
  rw [hpa]
  exact ⟨hpe.1, hpe.2.1, hpe.2.2, rfl, rfl, rfl⟩

/-- C10: in every reachable state the occupancy queries are consistent:
emptiness coincides with a zero count, fullness with a count equal to the
build-time capacity, for the two event queues and for the listener table. -/
theorem occupancy_query_consistency (N M : Nat) (s : EMState)
    (h : Reachable N M s) (pri : EventPriority) :
    (isEventQueueEmpty s pri = true ↔ getNumEventsInQueue s pri = 0) ∧
    (isEventQueueFull M s pri = true ↔ getNumEventsInQueue s pri = M) ∧
    (isListenerListEmpty s = true ↔ numListeners s = 0) ∧
    (isListenerListFull N s = true ↔ numListeners s = N) := by
  refine ⟨?_, ?_, ?_, ?_⟩
  · simp [isEventQueueEmpty, getNumEventsInQueue, List.isEmpty_iff,
      List.length_eq_zero]
  · simp [isEventQueueFull, getNumEventsInQueue]
  · simp [isListenerListEmpty, numListeners, List.isEmpty_iff,
      List.length_eq_zero]
  · simp [isListenerListFull, numListeners]

/-- Witness for C10 at the reachable state after one enqueue. -/
theorem occupancy_query_consistency_witness :
    (isEventQueueEmpty
          (runOps 8 8 [EMOp.queue 1 2 EventPriority.kLowPriority] initState)
          EventPriority.kLowPriority = true ↔
        getNumEventsInQueue
          (runOps 8 8 [EMOp.queue 1 2 EventPriority.kLowPriority] initState)
          EventPriority.kLowPriority = 0) ∧
    (isEventQueueFull 8
          (runOps 8 8 [EMOp.queue 1 2 EventPriority.kLowPriority] initState)
          EventPriority.kLowPriority = true ↔
        getNumEventsInQueue
          (runOps 8 8 [EMOp.queue 1 2 EventPriority.kLowPriority] initState)
          EventPriority.kLowPriority = 8) ∧
    (isListenerListEmpty
          (runOps 8 8 [EMOp.queue 1 2 EventPriority.kLowPriority] initState)
            = true ↔
        numListeners
          (runOps 8 8 [EMOp.queue 1 2 EventPriority.kLowPriority] initState)
            = 0) ∧
    (isListenerListFull 8
          (runOps 8 8 [EMOp.queue 1 2 EventPriority.kLowPriority] initState)
            = true ↔
        numListeners
          (runOps 8 8 [EMOp.queue 1 2 EventPriority.kLowPriority] initState)
            = 8) :=
  occupancy_query_consistency 8 8
    (runOps 8 8 [EMOp.queue 1 2 EventPriority.kLowPriority] initState)
    ⟨[EMOp.queue 1 2 EventPriority.kLowPriority], rfl⟩
    EventPriority.kLowPriority

/-- C2: FIFO order per queue.  When a sequence of `queueEvent` calls all
lands in one (initially empty) priority queue within capacity, and the
high-priority queue is empty throughout when the low queue is drained, every
call succeeds, and draining that many events with `processEvent` produces
the per-event invocation blocks in exactly enqueue order, each block's
invocations carrying that event's `(code_i, param_i)` pair. -/
theorem fifo_per_queue (M : Nat) (pri : EventPriority)
    (ps : List (Int × Int)) (s : EMState)
    (hempty : getQueue s pri = [])
    (hhigh : pri = EventPriority.kLowPriority → s.highQ = [])
    (hcap : ps.length ≤ M) :
    (enqueueAll M pri ps s).1 = ps.length ∧
    (processEvents ps.length (enqueueAll M pri ps s).2).1 =
      (ps.map (fun cp => handleEvent s ⟨cp.1, cp.2⟩)).flatten ∧
    (∀ cp ∈ ps, ∀ inv ∈ handleEvent s (⟨cp.1, cp.2⟩ : EventRecord),
      inv.eventCode = cp.1 ∧ inv.eventParam = cp.2) := by
  have hlen : (getQueue s pri).length + ps.length ≤ M := by
    rw [hempty]
    simpa using hcap
  have henq := enqueueAll_success M pri ps s hlen
  rw [hempty] at henq
  simp only [List.nil_append] at henq
  refine ⟨by rw [henq], ?_, ?_⟩
  · rw [henq]
    cases pri with
    | kHighPriority =>
      have hq1 : (setQueue s EventPriority.kHighPriority
          (ps.map (fun cp => (⟨cp.1, cp.2⟩ : EventRecord)))).highQ =
            ps.map (fun cp => (⟨cp.1, cp.2⟩ : EventRecord)) := rfl
      have hdrain := processEvents_drain_high
        (ps.map (fun cp => (⟨cp.1, cp.2⟩ : EventRecord))) _ hq1
      have hlenm : ps.length =
          (ps.map (fun cp => (⟨cp.1, cp.2⟩ : EventRecord))).length := by simp
      rw [hlenm, hdrain]
      rw [handleEvent_setQueue, List.map_map]
      rfl
    | kLowPriority =>
      have hq0 : (setQueue s EventPriority.kLowPriority
          (ps.map (fun cp => (⟨cp.1, cp.2⟩ : EventRecord)))).highQ = [] :=
        hhigh rfl
      have hq1 : (setQueue s EventPriority.kLowPriority
          (ps.map (fun cp => (⟨cp.1, cp.2⟩ : EventRecord)))).lowQ =
            ps.map (fun cp => (⟨cp.1, cp.2⟩ : EventRecord)) := rfl
      have hdrain := processEvents_drain_low
        (ps.map (fun cp => (⟨cp.1, cp.2⟩ : EventRecord))) _ hq0 hq1
      have hlenm : ps.length =
          (ps.map (fun cp => (⟨cp.1, cp.2⟩ : EventRecord))).length := by simp
      rw [hlenm, hdrain]
      rw [handleEvent_setQueue, List.map_map]
      rfl
  · intro cp _ inv hinv
    exact mem_handleEvent_fields hinv

/-- Witness for C2: two events enqueued low-priority into the empty state
are both accepted and drain in enqueue order. -/
theorem fifo_per_queue_witness :
    (enqueueAll 8 EventPriority.kLowPriority [(1, 2), (3, 4)] initState).1
        = 2 ∧
    (processEvents 2
        (enqueueAll 8 EventPriority.kLowPriority [(1, 2), (3, 4)]
          initState).2).1 =
      ([(1, 2), (3, 4)].map
        (fun cp => handleEvent initState ⟨cp.1, cp.2⟩)).flatten := by
  have h := fifo_per_queue 8 EventPriority.kLowPriority [(1, 2), (3, 4)]
    initState rfl (fun _ => rfl) (by decide)
  exact ⟨h.1, h.2.1⟩

/-- C6: after any sequence of `addListener`/`removeListener` calls from the
initial state, `numListeners()` equals the number of successful additions
minus the number of entries successfully removed, and table occupancy never
exceeds the build-time capacity `N` — in that run and in every reachable
state. -/
theorem listener_occupancy_accounting (N M : Nat) (ops : List RegOp) :
    ((numListeners (runRegOps N ops initState).1 : Int) =
        ((runRegOps N ops initState).2.1 : Int)
          - ((runRegOps N ops initState).2.2 : Int)) ∧
    numListeners (runRegOps N ops initState).1 ≤ N ∧
    (∀ s : EMState, Reachable N M s → numListeners s ≤ N) := by
  obtain ⟨ha, hb⟩ := runRegOps_counts N ops initState
  refine ⟨?_, ?_, ?_⟩
  · show ((runRegOps N ops initState).1.table.length : Int) = _
    rw [ha]
    show ((0 : Nat) : Int) + _ - _ = _
    omega
  · exact hb (Nat.zero_le N)
  · intro s hs
    exact (reachable_inv N M s hs).1

/-- Witness for C6: one successful addition followed by a successful removal
leaves zero listeners, within capacity, and the initial state is within
capacity. -/
theorem listener_occupancy_accounting_witness :
    ((numListeners (runRegOps 8
          [RegOp.add 5 (some 1), RegOp.removePair 5 1] initState).1 : Int) =
        ((runRegOps 8 [RegOp.add 5 (some 1), RegOp.removePair 5 1]
            initState).2.1 : Int)
          - ((runRegOps 8 [RegOp.add 5 (some 1), RegOp.removePair 5 1]
              initState).2.2 : Int)) ∧
    numListeners initState ≤ 8 := by
  have h := listener_occupancy_accounting 8 8
    [RegOp.add 5 (some 1), RegOp.removePair 5 1]
  exact ⟨h.1, h.2.2 initState ⟨[], rfl⟩⟩


/-- Counterexample to C3's final sentence: in `disabledMatchState` a
registered-but-disabled matching listener exists, yet `processEvent` still
invokes the installed, enabled default listener (one invocation, return 1) —
the disabled match does not suppress the default listener. -/
theorem default_suppression_counterexample :
    (disabledMatchState.table.any
        (fun e => e.eventCode == 5 && !e.enabled)) = true ∧
    enabledMatches disabledMatchState 5 = [] ∧
    (processEvent disabledMatchState).1 =
      [{ listener := 2, eventCode := 5, eventParam := 7 }] ∧
    processEventCount disabledMatchState = 1 := by
  decide

/-- C3 (amended): when `processEvent` pops an event with zero *enabled*
matching listeners, an installed and enabled default listener is invoked
exactly once and the call returns 1; with no default listener installed the
call returns 0; in both cases the popped event is removed from its queue.
The fallback fires whenever zero enabled listeners matched, so a
registered-but-disabled matching listener does not suppress the default
listener. -/
theorem default_listener_rule (s : EMState) (r : EventRecord)
    (t : List EventRecord)
    (hpop : s.highQ = r :: t ∨ (s.highQ = [] ∧ s.lowQ = r :: t))
    (hnone : enabledMatches s r.eventCode = []) :
    (∀ f, s.defaultListener = some f → s.defaultEnabled = true →
      (processEvent s).1 = [⟨f, r.eventCode, r.eventParam⟩] ∧
      processEventCount s = 1) ∧
    (s.defaultListener = none →
      (processEvent s).1 = [] ∧ processEventCount s = 0) ∧
    getNumEventsInQueue (processEvent s).2 EventPriority.kHighPriority +
        getNumEventsInQueue (processEvent s).2 EventPriority.kLowPriority + 1 =
      getNumEventsInQueue s EventPriority.kHighPriority +
        getNumEventsInQueue s EventPriority.kLowPriority := by
  have hscan : scanTable r.eventCode r.eventParam s.table = [] := by
    rw [scanTable_eq_map_filter]
    rw [show s.table.filter (fun e => e.eventCode == r.eventCode && e.enabled)
          = enabledMatches s r.eventCode from rfl, hnone]
    rfl
  have hdef : ∀ f, s.defaultListener = some f → s.defaultEnabled = true →
      handleEvent s r = [⟨f, r.eventCode, r.eventParam⟩] := by
    intro f hf he
    simp only [handleEvent, hscan]
    simp [hf, he]
  have hdef0 : s.defaultListener = none → handleEvent s r = [] := by
    intro hf
    simp only [handleEvent, hscan]
    simp [hf]
  rcases hpop with hh | ⟨hh, hl⟩
  · have hstep : processEvent s = (handleEvent s r, { s with highQ := t }) := by
      simp [processEvent, hh]
    refine ⟨?_, ?_, ?_⟩
    · intro f hf he
      rw [show processEventCount s = (processEvent s).1.length from rfl, hstep,
        hdef f hf he]
      exact ⟨rfl, rfl⟩
    · intro hf
      rw [show processEventCount s = (processEvent s).1.length from rfl, hstep,
        hdef0 hf]
      exact ⟨rfl, rfl⟩
    · rw [hstep]
      show t.length + s.lowQ.length + 1 = s.highQ.length + s.lowQ.length
      rw [hh]
      simp only [List.length_cons]
      omega
  · have hstep : processEvent s = (handleEvent s r, { s with lowQ := t }) := by
      simp [processEvent, hh, hl]
    refine ⟨?_, ?_, ?_⟩
    · intro f hf he
      rw [show processEventCount s = (processEvent s).1.length from rfl, hstep,
        hdef f hf he]
      exact ⟨rfl, rfl⟩
    · intro hf
      rw [show processEventCount s = (processEvent s).1.length from rfl, hstep,
        hdef0 hf]
      exact ⟨rfl, rfl⟩
    · rw [hstep]
      show s.highQ.length + t.length + 1 = s.highQ.length + s.lowQ.length
      rw [hl]
      simp only [List.length_cons]
      omega

/-- Witness for C3 (amended) at `disabledMatchState`: the default listener
fires despite the registered-but-disabled match. -/
theorem default_listener_rule_witness :
    (processEvent disabledMatchState).1 =
      [⟨2, (5 : Int), (7 : Int)⟩] ∧
    processEventCount disabledMatchState = 1 :=
  (default_listener_rule disabledMatchState ⟨5, 7⟩ [] (Or.inl rfl)
    (by decide)).1 2 rfl rfl



/-- Counterexample to C7's example: from the initial state (no listeners,
no default listener), filling the high-priority queue to its capacity of 8
succeeds, a 9th `queueEvent` returns false, but `processAllEvents` returns
0, not 8 — the return value counts handler invocations, of which there are
none. -/
theorem processAllEvents_example_counterexample :
    (enqueueAll EVENTMANAGER_EVENT_QUEUE_SIZE EventPriority.kHighPriority
        examplePairs initState).1 = 8 ∧
    (queueEvent EVENTMANAGER_EVENT_QUEUE_SIZE exampleFilledNoListeners 8 8
        EventPriority.kHighPriority).1 = false ∧
    processAllEventsCount exampleFilledNoListeners = 0 ∧
    ¬processAllEventsCount exampleFilledNoListeners = 8 := by
  have hcount : processAllEventsCount exampleFilledNoListeners = 0 := by
    show (processAllEvents exampleFilledNoListeners).1.length = 0
    rw [processAllEvents_char exampleFilledNoListeners.highQ
      exampleFilledNoListeners rfl]
    decide
  refine ⟨by decide, by decide, hcount, ?_⟩
  rw [hcount]
  decide


/-- C7 (amended): `processAllEvents` repeatedly performs the single-event
step until both queues report empty (and, with no concurrent enqueues in the
model, this drain terminates), returning the accumulated invocation count —
the sum of the per-event invocation counts.  In the fill-to-capacity
scenario the 9th `queueEvent` returns false and, when each event invokes
exactly one handler (here an installed, enabled default listener and no
table entries), `processAllEvents` returns 8 and the queue reports empty. -/
theorem processAllEvents_drain_spec (s : EMState) :
    processAllEventsCount s =
      (((s.highQ ++ s.lowQ).map (fun r => (handleEvent s r).length)).sum) ∧
    (processAllEvents s).2 = { s with highQ := [], lowQ := [] } ∧
    isEventQueueEmpty (processAllEvents s).2 EventPriority.kHighPriority
        = true ∧
    isEventQueueEmpty (processAllEvents s).2 EventPriority.kLowPriority
        = true ∧
    ((enqueueAll EVENTMANAGER_EVENT_QUEUE_SIZE EventPriority.kHighPriority
        examplePairs (setDefaultListener initState (some 1)).2).1 = 8 ∧
      (queueEvent EVENTMANAGER_EVENT_QUEUE_SIZE exampleFilledDefault 8 8
          EventPriority.kHighPriority).1 = false ∧
      processAllEventsCount exampleFilledDefault = 8 ∧
      isEventQueueEmpty (processAllEvents exampleFilledDefault).2
          EventPriority.kHighPriority = true) := by
  have hchar := processAllEvents_char s.highQ s rfl
  have hcharex := processAllEvents_char exampleFilledDefault.highQ
    exampleFilledDefault rfl
  refine ⟨?_, ?_, ?_, ?_, by decide, by decide, ?_, ?_⟩
  · show (processAllEvents s).1.length = _
    rw [hchar]
    simp only [List.map_append, List.flatten_append]
    rw [List.length_append, List.length_flatten, List.length_flatten]
    simp only [List.map_map, List.map_append, List.sum_append]
    rfl
  · rw [hchar]
  · rw [hchar]
    rfl
  · rw [hchar]
    rfl
  · show (processAllEvents exampleFilledDefault).1.length = 8
    rw [hcharex]
    decide
  · rw [hcharex]
    rfl

end EventManager
